import Mathlib

/-!
Verification development for the code-cadence repository.

The Go sources are embedded shallowly:

* Times are modelled as `Int` nanoseconds (Go `time.Time`/`time.Duration`
  both count nanoseconds; `time.Duration` division is truncated integer
  division, here `Int.tdiv`).  A calendar day is represented by the
  instant of its midnight, so `day + hour * hourNs` is the instant of
  `time.Date(y, m, d, hour, 0, 0, 0, loc)`.
* Go's global `math/rand` source is modelled by an injected stream
  `rng : Nat → Nat`: the k-th call `rand.Intn(b)` made by a function
  returns `rng k % b`, which ranges over exactly the values `0 .. b-1`
  that `rand.Intn` can produce.
* The git subprocess boundary of the History Rewrite Executor is
  modelled by an oracle assigning a result to every issued command, and
  the executor is a function producing the ordered trace of issued
  commands together with its Go return values.
-/

namespace CodeCadence

/-- One minute in nanoseconds (`time.Minute`). -/
def minuteNs : Int := 60000000000

/-- One hour in nanoseconds (`time.Hour`). -/
def hourNs : Int := 3600000000000

/-- The jitter duration `time.Duration(rand.Intn(JitterMinutes*2)-JitterMinutes) * time.Minute`
(src/unnamed/part_001 lines 547 and 558), where `r` is the raw draw of the
random source. -/
def jitterNs (jitterMinutes : Nat) (r : Nat) : Int :=
  ((r % (jitterMinutes * 2) : Nat) - (jitterMinutes : Int)) * minuteNs

/-- The post-processing loop of `generateCommitTimesForDay`
(src/unnamed/part_001 lines 564-571): a time before the window start is
clamped to the start; a time at or after the window end
(`timeVal.After(workDayEnd) || timeVal.Equal(workDayEnd)`) is clamped to
one minute before the end. -/
def clampToWorkWindow (workDayStart workDayEnd : Int) (t : Int) : Int :=
  if t < workDayStart then workDayStart
  else if workDayEnd ≤ t then workDayEnd - minuteNs
  else t

/-- Embedding of `generateCommitTimesForDay` (src/unnamed/part_001 lines
531-579).  `day` is the midnight instant of the calendar day,
`workDayStartHour`/`workDayEndHour` are the configured
`WorkDayStartHour`/`WorkDayEndHour`, `jitterMinutes` is `JitterMinutes`
(already clamped to be non-negative by `loadConfig`).  The `rng` stream
supplies the successive `rand.Intn` draws: in the single-commit branch the
draws are `rng 0 % 60` and (when jitter is enabled) `rng 1 % (2*J)`; in the
multi-commit branch iteration `i` draws `rng i % (2*J)` when jitter is
enabled.  `sort.Slice` with `Before` is rendered as `List.insertionSort
(· ≤ ·)`; over a linear order it produces the same (unique) sorted
rearrangement. -/
def generateCommitTimesForDay (workDayStartHour workDayEndHour : Int)
    (jitterMinutes : Nat) (rng : Nat → Nat) (day : Int) (commitCount : Nat) : List Int :=
  if commitCount = 0 then []
  else
    let workDayStart := day + workDayStartHour * hourNs
    let workDayEnd := day + workDayEndHour * hourNs
    let workDayDuration := workDayEnd - workDayStart
    let times : List Int :=
      if commitCount = 1 then
        let eveningTime := workDayEnd - ((rng 0 % 60 : Nat) : Int) * minuteNs
        let jitter : Int := if 0 < jitterMinutes then jitterNs jitterMinutes (rng 1) else 0
        [eveningTime + jitter]
      else
        let interval := Int.tdiv workDayDuration ((commitCount - 1 : Nat) : Int)
        (List.range commitCount).map fun (i : Nat) =>
          let baseTime := workDayStart + (i : Int) * interval
          let jitter : Int := if 0 < jitterMinutes then jitterNs jitterMinutes (rng i) else 0
          baseTime + jitter
    List.insertionSort (· ≤ ·)
      (times.map (clampToWorkWindow workDayStart workDayEnd))

lemma minuteNs_pos : (0 : Int) < minuteNs := by decide

lemma minuteNs_lt_hourNs : minuteNs < hourNs := by decide

/-- The clamp always lands inside `[start, end)` as soon as the window is at
least one minute wide. -/
lemma clampToWorkWindow_bounds {ws we : Int} (h : ws + minuteNs ≤ we) (t : Int) :
    ws ≤ clampToWorkWindow ws we t ∧ clampToWorkWindow ws we t < we := by
  unfold clampToWorkWindow
  have hm := minuteNs_pos
  split
  · exact ⟨le_refl _, by linarith⟩
  · split
    · exact ⟨by linarith, by linarith⟩
    · omega

/-- In a degenerate window (`start = end`) the clamp sends every time either
to the start or to one minute before the start. -/
lemma clampToWorkWindow_degenerate {ws : Int} (t : Int) :
    clampToWorkWindow ws ws t = ws ∨ clampToWorkWindow ws ws t = ws - minuteNs := by
  unfold clampToWorkWindow
  split
  · exact Or.inl rfl
  · split
    · exact Or.inr rfl
    · omega

lemma mem_generateCommitTimesForDay {sh eh : Int} {J : Nat} {rng : Nat → Nat}
    {day : Int} {n : Nat} {t : Int}
    (ht : t ∈ generateCommitTimesForDay sh eh J rng day n) :
    ∃ s, t = clampToWorkWindow (day + sh * hourNs) (day + eh * hourNs) s := by
  unfold generateCommitTimesForDay at ht
  split at ht
  · simp at ht
  · rw [(List.perm_insertionSort _ _).mem_iff, List.mem_map] at ht
    obtain ⟨s, _, hs⟩ := ht
    exact ⟨s, hs.symm⟩

lemma length_generateCommitTimesForDay (sh eh : Int) (J : Nat) (rng : Nat → Nat)
    (day : Int) (n : Nat) :
    (generateCommitTimesForDay sh eh J rng day n).length = n := by
  unfold generateCommitTimesForDay
  split
  · simp; omega
  · rw [List.length_insertionSort, List.length_map]
    split
    · simp; omega
    · simp

/-- C3: for every day, every count `n ≥ 1` and every jitter setting,
`generateCommitTimesForDay` returns exactly `n` timestamps sorted in
ascending order, none of which equals or exceeds the work-window end; and
with jitter `0` all of them lie within `[start, end)`.  (The work window is
a genuine window: `startHour < endHour`.) -/
theorem generateCommitTimesForDay_count_sorted_window
    (sh eh : Int) (J : Nat) (rng : Nat → Nat) (day : Int) (n : Nat)
    (hn : 1 ≤ n) (hw : sh < eh) :
    (generateCommitTimesForDay sh eh J rng day n).length = n ∧
    List.Sorted (· ≤ ·) (generateCommitTimesForDay sh eh J rng day n) ∧
    (∀ t ∈ generateCommitTimesForDay sh eh J rng day n, t < day + eh * hourNs) ∧
    (J = 0 → ∀ t ∈ generateCommitTimesForDay sh eh J rng day n,
      day + sh * hourNs ≤ t ∧ t < day + eh * hourNs) := by
  have hwin : day + sh * hourNs + minuteNs ≤ day + eh * hourNs := by
    have h1 : (1 : Int) ≤ eh - sh := by omega
    have h2 : (1 : Int) * hourNs ≤ (eh - sh) * hourNs :=
      mul_le_mul_of_nonneg_right h1 (by decide)
    have h3 : minuteNs < hourNs := minuteNs_lt_hourNs
    nlinarith [minuteNs_pos]
  have hbounds : ∀ t ∈ generateCommitTimesForDay sh eh J rng day n,
      day + sh * hourNs ≤ t ∧ t < day + eh * hourNs := by
    intro t ht
    obtain ⟨s, hs⟩ := mem_generateCommitTimesForDay ht
    rw [hs]
    exact clampToWorkWindow_bounds hwin s
  refine ⟨length_generateCommitTimesForDay sh eh J rng day n, ?_, ?_, ?_⟩
  · unfold generateCommitTimesForDay
    split
    · simp
    · exact List.sorted_insertionSort _ _
  · exact fun t ht => (hbounds t ht).2
  · exact fun _ t ht => hbounds t ht

/-- Witness for C3 at a concrete input. -/
theorem generateCommitTimesForDay_count_sorted_window_witness :
    (generateCommitTimesForDay 9 17 30 (fun _ => 7) 0 2).length = 2 ∧
    List.Sorted (· ≤ ·) (generateCommitTimesForDay 9 17 30 (fun _ => 7) 0 2) ∧
    (∀ t ∈ generateCommitTimesForDay 9 17 30 (fun _ => 7) 0 2, t < 0 + 17 * hourNs) ∧
    ((30 : Nat) = 0 → ∀ t ∈ generateCommitTimesForDay 9 17 30 (fun _ => 7) 0 2,
      0 + 9 * hourNs ≤ t ∧ t < 0 + 17 * hourNs) :=
  generateCommitTimesForDay_count_sorted_window 9 17 30 (fun _ => 7) 0 2
    (by decide) (by decide)

/-- C2 (amended): in a degenerate window every timestamp is the window start
or one minute before it; with jitter disabled and `n ≥ 2` every timestamp is
exactly one minute before the start (the raw time equals `start = end`, and
the clamp sends any time at-or-after the end to `end - 1min`). -/
theorem generateCommitTimesForDay_degenerate (h : Int) (J : Nat) (rng : Nat → Nat)
    (day : Int) (n : Nat) (hn : 1 ≤ n) :
    (∀ t ∈ generateCommitTimesForDay h h J rng day n,
        t = day + h * hourNs ∨ t = day + h * hourNs - minuteNs) ∧
    (J = 0 → 2 ≤ n → ∀ t ∈ generateCommitTimesForDay h h J rng day n,
        t = day + h * hourNs - minuteNs) := by
  constructor
  · intro t ht
    obtain ⟨s, hs⟩ := mem_generateCommitTimesForDay ht
    rw [hs]
    exact clampToWorkWindow_degenerate s
  · intro hJ hn2 t ht
    subst hJ
    unfold generateCommitTimesForDay at ht
    rw [if_neg (by omega : ¬ n = 0)] at ht
    simp only [if_neg (by omega : ¬ n = 1), Nat.lt_irrefl, if_false] at ht
    rw [(List.perm_insertionSort _ _).mem_iff] at ht
    simp only [List.map_map, List.mem_map, List.mem_range, Function.comp] at ht
    obtain ⟨i, _, hi⟩ := ht
    have hz : day + h * hourNs - (day + h * hourNs) = 0 := by ring
    rw [hz, Int.zero_tdiv, mul_zero, add_zero, add_zero] at hi
    rw [← hi]
    simp [clampToWorkWindow]

/-- Witness for the amended C2 at a concrete input. -/
theorem generateCommitTimesForDay_degenerate_witness :
    (∀ t ∈ generateCommitTimesForDay 9 9 0 (fun _ => 0) 0 2,
        t = 0 + 9 * hourNs ∨ t = 0 + 9 * hourNs - minuteNs) ∧
    ((0 : Nat) = 0 → 2 ≤ 2 → ∀ t ∈ generateCommitTimesForDay 9 9 0 (fun _ => 0) 0 2,
        t = 0 + 9 * hourNs - minuteNs) :=
  generateCommitTimesForDay_degenerate 9 0 (fun _ => 0) 0 2 (by decide)

/-- C2 counterexample: with a degenerate 9:00-9:00 window, jitter 0 and two
commits, the returned timestamps are both 8:59, not the window start 9:00. -/
theorem generateCommitTimesForDay_degenerate_counterexample :
    generateCommitTimesForDay 9 9 0 (fun _ => 0) 0 2 = [32340000000000, 32340000000000] ∧
    (32340000000000 : Int) ≠ 0 + 9 * hourNs := ⟨by decide, by decide⟩

/-- With jitter disabled and at least two commits the random stream is never
consulted (the multi-commit branch only draws when `JitterMinutes > 0`). -/
lemma generateCommitTimesForDay_jitter_zero (sh eh : Int) (rng rng' : Nat → Nat)
    (day : Int) (n : Nat) (hn : 2 ≤ n) :
    generateCommitTimesForDay sh eh 0 rng day n
      = generateCommitTimesForDay sh eh 0 rng' day n := by
  unfold generateCommitTimesForDay
  simp only [if_neg (by omega : ¬ n = 0), if_neg (by omega : ¬ n = 1),
    Nat.lt_irrefl, if_false]

lemma orderedInsert_map_add (d a : Int) (l : List Int) :
    List.orderedInsert (· ≤ ·) (d + a) (l.map (d + ·))
      = (List.orderedInsert (· ≤ ·) a l).map (d + ·) := by
  induction l with
  | nil => rfl
  | cons b t ih =>
      simp only [List.map_cons, List.orderedInsert, add_le_add_iff_left]
      split <;> simp [ih]

lemma insertionSort_map_add (d : Int) (l : List Int) :
    List.insertionSort (· ≤ ·) (l.map (d + ·))
      = (List.insertionSort (· ≤ ·) l).map (d + ·) := by
  induction l with
  | nil => rfl
  | cons b t ih => simp only [List.map_cons, List.insertionSort, ih,
      orderedInsert_map_add]

lemma clampToWorkWindow_shift (d ws we t : Int) :
    clampToWorkWindow (d + ws) (d + we) (d + t) = d + clampToWorkWindow ws we t := by
  simp only [clampToWorkWindow, add_lt_add_iff_left, add_le_add_iff_left]
  split
  · rfl
  · split
    · ring
    · rfl

/-- Translating the day translates every produced timestamp. -/
lemma generateCommitTimesForDay_shift (sh eh : Int) (J : Nat) (rng : Nat → Nat)
    (day : Int) (n : Nat) :
    generateCommitTimesForDay sh eh J rng day n
      = (generateCommitTimesForDay sh eh J rng 0 n).map (day + ·) := by
  unfold generateCommitTimesForDay
  split
  · simp
  · have hdur : day + eh * hourNs - (day + sh * hourNs)
        = 0 + eh * hourNs - (0 + sh * hourNs) := by ring
    have hraw :
        (if n = 1 then
          [day + eh * hourNs - ((rng 0 % 60 : Nat) : Int) * minuteNs +
            (if 0 < J then jitterNs J (rng 1) else 0)]
        else
          (List.range n).map fun (i : Nat) =>
            day + sh * hourNs +
              (i : Int) * Int.tdiv (day + eh * hourNs - (day + sh * hourNs)) ((n - 1 : Nat) : Int) +
              (if 0 < J then jitterNs J (rng i) else 0)) =
        ((if n = 1 then
          [0 + eh * hourNs - ((rng 0 % 60 : Nat) : Int) * minuteNs +
            (if 0 < J then jitterNs J (rng 1) else 0)]
        else
          (List.range n).map fun (i : Nat) =>
            0 + sh * hourNs +
              (i : Int) * Int.tdiv (0 + eh * hourNs - (0 + sh * hourNs)) ((n - 1 : Nat) : Int) +
              (if 0 < J then jitterNs J (rng i) else 0)) : List Int).map (day + ·) := by
      split
      · simp only [List.map_cons, List.map_nil, List.cons.injEq, and_true]
        ring
      · rw [List.map_map]
        refine List.map_congr_left fun i _ => ?_
        simp only [Function.comp, hdur]
        ring
    simp only [hraw, List.map_map]
    have hclamp : ∀ x : Int,
        (clampToWorkWindow (day + sh * hourNs) (day + eh * hourNs) ∘ (day + ·)) x
          = ((day + ·) ∘ clampToWorkWindow (0 + sh * hourNs) (0 + eh * hourNs)) x := by
      intro x
      simp only [Function.comp]
      have h1 : day + sh * hourNs = day + (0 + sh * hourNs) := by ring
      have h2 : day + eh * hourNs = day + (0 + eh * hourNs) := by ring
      rw [h1, h2, clampToWorkWindow_shift]
    rw [List.map_congr_left fun x _ => hclamp x]
    rw [← List.map_map, insertionSort_map_add]

/-- C4: with a 9:00-17:00 window and jitter 0, three commits on one day get
exactly the ascending timestamps 09:00, 13:00 and 16:59 (start, start plus
one 4-hour interval, and the last point clamped to one minute before the
end). -/
theorem generateCommitTimesForDay_nine_seventeen_three (day : Int) (rng : Nat → Nat) :
    generateCommitTimesForDay 9 17 0 rng day 3 =
      [day + 9 * hourNs, day + 13 * hourNs, day + 17 * hourNs - minuteNs] := by
  rw [generateCommitTimesForDay_jitter_zero 9 17 rng (fun _ => 0) day 3 (by omega),
    generateCommitTimesForDay_shift]
  have : generateCommitTimesForDay 9 17 0 (fun _ => 0) 0 3
      = [32400000000000, 46800000000000, 61140000000000] := by decide
  rw [this]
  simp only [List.map_cons, List.map_nil, hourNs, minuteNs, List.cons.injEq,
    List.nil_eq, and_true]
  omega

/-- C10: with jitter 0 the planner is deterministic for every count `n ≥ 2`
(the output does not depend on the random stream), but for a single commit
the placement draws from the random source even with jitter 0, so two runs
can differ. -/
theorem generateCommitTimesForDay_determinism_dichotomy :
    (∀ (sh eh : Int) (rng rng' : Nat → Nat) (day : Int) (n : Nat), 2 ≤ n →
        generateCommitTimesForDay sh eh 0 rng day n
          = generateCommitTimesForDay sh eh 0 rng' day n) ∧
    generateCommitTimesForDay 9 17 0 (fun _ => 2) 0 1
      ≠ generateCommitTimesForDay 9 17 0 (fun _ => 10) 0 1 := by
  refine ⟨fun sh eh rng rng' day n hn =>
    generateCommitTimesForDay_jitter_zero sh eh rng rng' day n hn, ?_⟩
  decide

/-- Witness for C10 at a concrete input. -/
theorem generateCommitTimesForDay_determinism_dichotomy_witness :
    generateCommitTimesForDay 9 17 0 (fun _ => 3) 0 2
      = generateCommitTimesForDay 9 17 0 (fun _ => 8) 0 2 :=
  generateCommitTimesForDay_determinism_dichotomy.1 9 17 (fun _ => 3) (fun _ => 8) 0 2
    (by decide)

/-- `out[i]++` on a Go slice of counters (identity when the index is out of
range, which never happens in `allocateAcrossDays`). -/
def bump : List Nat → Nat → List Nat
  | [], _ => []
  | a :: t, 0 => (a + 1) :: t
  | a :: t, i + 1 => a :: bump t i

/-- Embedding of `allocateAcrossDays` (src/unnamed/part_001 lines 647-711).
`jitterDays` is the `JitterDays` configuration flag and `rng` supplies the
successive `rand.Intn(availableDays)` draws of the jittered mode (the i-th
middle commit draws `rng i % availableDays`). -/
def allocateAcrossDays (jitterDays : Bool) (rng : Nat → Nat) (n m : Nat) : List Nat :=
  if m = 0 then []
  else
    let out := List.replicate m 0
    if n = 0 then out
    else if n = 1 then bump out (m - 1)
    else if m = 1 then out.set 0 n
    else
      let out := bump (bump out 0) (m - 1)
      if 2 < n then
        let middleCommits := n - 2
        let availableDays := m - 2
        if 0 < availableDays then
          (List.range middleCommits).foldl
            (fun acc i =>
              bump acc (1 +
                (if jitterDays then rng i % availableDays
                 else (i * 7 + i * i) % availableDays)))
            out
        else
          (List.range middleCommits).foldl
            (fun acc i => bump acc (if i % 2 = 0 then 0 else m - 1))
            out
      else out

lemma bump_length (l : List Nat) (i : Nat) : (bump l i).length = l.length := by
  induction l generalizing i with
  | nil => rfl
  | cons a t ih =>
      cases i with
      | zero => rfl
      | succ j => simp [bump, ih]

lemma bump_sum (l : List Nat) (i : Nat) (h : i < l.length) :
    (bump l i).sum = l.sum + 1 := by
  induction l generalizing i with
  | nil => simp at h
  | cons a t ih =>
      cases i with
      | zero => simp [bump]; omega
      | succ j =>
          simp only [bump, List.sum_cons, ih j (by simpa using h)]
          omega

lemma bump_getD_eq (l : List Nat) (i : Nat) (h : i < l.length) :
    (bump l i).getD i 0 = l.getD i 0 + 1 := by
  induction l generalizing i with
  | nil => simp at h
  | cons a t ih =>
      cases i with
      | zero => rfl
      | succ j => simpa [bump] using ih j (by simpa using h)

lemma bump_getD_ne (l : List Nat) (i j : Nat) (h : i ≠ j) :
    (bump l i).getD j 0 = l.getD j 0 := by
  induction l generalizing i j with
  | nil => rfl
  | cons a t ih =>
      cases i with
      | zero => cases j with
          | zero => omega
          | succ k => rfl
      | succ i' => cases j with
          | zero => rfl
          | succ k => simpa [bump] using ih i' k (by omega)

lemma foldl_bump_length (f : Nat → Nat) (L : List Nat) (acc : List Nat) :
    (L.foldl (fun a i => bump a (f i)) acc).length = acc.length := by
  induction L generalizing acc with
  | nil => rfl
  | cons x t ih => simp [List.foldl_cons, ih, bump_length]

lemma foldl_bump_sum (f : Nat → Nat) (L : List Nat) (acc : List Nat)
    (h : ∀ i ∈ L, f i < acc.length) :
    (L.foldl (fun a i => bump a (f i)) acc).sum = acc.sum + L.length := by
  induction L generalizing acc with
  | nil => simp
  | cons x t ih =>
      have hx : f x < acc.length := h x (List.mem_cons_self x t)
      have ht : ∀ i ∈ t, f i < (bump acc (f x)).length := by
        intro i hi
        rw [bump_length]
        exact h i (List.mem_cons_of_mem x hi)
      simp only [List.foldl_cons, List.length_cons, ih (bump acc (f x)) ht,
        bump_sum acc (f x) hx]
      omega

lemma foldl_bump_getD (f : Nat → Nat) (L : List Nat) (acc : List Nat) (j : Nat)
    (h : ∀ i ∈ L, f i < acc.length) :
    (L.foldl (fun a i => bump a (f i)) acc).getD j 0
      = acc.getD j 0 + L.countP (fun i => f i = j) := by
  induction L generalizing acc with
  | nil => simp
  | cons x t ih =>
      have hx : f x < acc.length := h x (List.mem_cons_self x t)
      have ht : ∀ i ∈ t, f i < (bump acc (f x)).length := by
        intro i hi
        rw [bump_length]
        exact h i (List.mem_cons_of_mem x hi)
      simp only [List.foldl_cons, ih (bump acc (f x)) ht, List.countP_cons]
      by_cases hxj : f x = j
      · subst hxj
        rw [bump_getD_eq acc (f x) hx, if_pos (by simp)]
        omega
      · rw [bump_getD_ne acc (f x) j hxj, if_neg (by simp [hxj])]
        omega

lemma getD_replicate_zero (m j : Nat) : (List.replicate m (0 : Nat)).getD j 0 = 0 := by
  induction m generalizing j with
  | zero => rfl
  | succ k ih =>
      cases j with
      | zero => rfl
      | succ j' => exact ih j'

/-- The counters after anchoring the first commit on the first day and the
last commit on the last day. -/
lemma base_bump_getD (m j : Nat) (hm : 2 ≤ m) (hj : j < m) :
    (bump (bump (List.replicate m 0) 0) (m - 1)).getD j 0
      = (if j = 0 then 1 else 0) + (if j = m - 1 then 1 else 0) := by
  by_cases h0 : j = 0
  · subst h0
    rw [bump_getD_ne _ _ _ (by omega), bump_getD_eq _ _ (by simp; omega),
      getD_replicate_zero]
    simp [show ¬ (0 : Nat) = m - 1 by omega]
  · by_cases hl : j = m - 1
    · subst hl
      rw [bump_getD_eq _ _ (by rw [bump_length]; simp; omega),
        bump_getD_ne _ _ _ (by omega), getD_replicate_zero]
      simp [h0]
    · rw [bump_getD_ne _ _ _ (by omega), bump_getD_ne _ _ _ (by omega),
        getD_replicate_zero]
      simp [h0, hl]

lemma base_bump_length (m : Nat) :
    (bump (bump (List.replicate m 0) 0) (m - 1)).length = m := by
  rw [bump_length, bump_length, List.length_replicate]

lemma base_bump_sum (m : Nat) (hm : 2 ≤ m) :
    (bump (bump (List.replicate m 0) 0) (m - 1)).sum = 2 := by
  rw [bump_sum _ _ (by rw [bump_length]; simp; omega),
    bump_sum _ _ (by simp; omega)]
  simp

/-- C5: for every non-negative `n` and non-empty day list, in both modes, the
counts returned by `allocateAcrossDays` sum to exactly `n`, and when `n > 1`
and there is more than one day the first and last entries are non-zero. -/
theorem allocateAcrossDays_sum_anchors (jd : Bool) (rng : Nat → Nat) (n m : Nat)
    (hm : 1 ≤ m) :
    (allocateAcrossDays jd rng n m).sum = n ∧
    (1 < n → 1 < m →
      0 < (allocateAcrossDays jd rng n m).getD 0 0 ∧
      0 < (allocateAcrossDays jd rng n m).getD (m - 1) 0) := by
  unfold allocateAcrossDays
  rw [if_neg (by omega : ¬ m = 0)]
  by_cases h0 : n = 0
  · subst h0
    simp
  · rw [if_neg h0]
    by_cases h1 : n = 1
    · subst h1
      rw [if_pos rfl]
      refine ⟨?_, by omega⟩
      rw [bump_sum _ _ (by simp; omega)]
      simp
    · rw [if_neg h1]
      by_cases hm1 : m = 1
      · subst hm1
        rw [if_pos rfl]
        refine ⟨by simp, by omega⟩
      · rw [if_neg hm1]
        have hm2 : 2 ≤ m := by omega
        by_cases h2 : 2 < n
        · rw [if_pos h2]
          by_cases ha : 0 < m - 2
          · rw [if_pos ha]
            have hf : ∀ i ∈ List.range (n - 2),
                (fun i => 1 + (if jd then rng i % (m - 2) else (i * 7 + i * i) % (m - 2))) i
                  < (bump (bump (List.replicate m 0) 0) (m - 1)).length := by
              intro i _
              show 1 + (if jd then rng i % (m - 2) else (i * 7 + i * i) % (m - 2))
                < (bump (bump (List.replicate m 0) 0) (m - 1)).length
              rw [base_bump_length]
              have : (if jd then rng i % (m - 2) else (i * 7 + i * i) % (m - 2)) < m - 2 := by
                split <;> exact Nat.mod_lt _ ha
              omega
            have hsum := foldl_bump_sum _ (List.range (n - 2)) _ hf
            have hg0 := foldl_bump_getD _ (List.range (n - 2)) _ 0 hf
            have hgl := foldl_bump_getD _ (List.range (n - 2)) _ (m - 1) hf
            refine ⟨?_, fun _ _ => ⟨?_, ?_⟩⟩
            · simp only [hsum, base_bump_sum m hm2, List.length_range]
              omega
            · simp only [hg0, base_bump_getD m 0 hm2 (by omega)]
              simp [show ¬ (0 : Nat) = m - 1 by omega]
            · simp only [hgl, base_bump_getD m (m - 1) hm2 (by omega)]
              simp [show ¬ m - 1 = 0 by omega]
          · rw [if_neg ha]
            have hf : ∀ i ∈ List.range (n - 2),
                (fun i => if i % 2 = 0 then 0 else m - 1) i
                  < (bump (bump (List.replicate m 0) 0) (m - 1)).length := by
              intro i _
              show (if i % 2 = 0 then 0 else m - 1)
                < (bump (bump (List.replicate m 0) 0) (m - 1)).length
              rw [base_bump_length]
              split <;> omega
            have hsum := foldl_bump_sum _ (List.range (n - 2)) _ hf
            have hg0 := foldl_bump_getD _ (List.range (n - 2)) _ 0 hf
            have hgl := foldl_bump_getD _ (List.range (n - 2)) _ (m - 1) hf
            refine ⟨?_, fun _ _ => ⟨?_, ?_⟩⟩
            · simp only [hsum, base_bump_sum m hm2, List.length_range]
              omega
            · simp only [hg0, base_bump_getD m 0 hm2 (by omega)]
              simp [show ¬ (0 : Nat) = m - 1 by omega]
            · simp only [hgl, base_bump_getD m (m - 1) hm2 (by omega)]
              simp [show ¬ m - 1 = 0 by omega]
        · rw [if_neg h2]
          have hn2 : n = 2 := by omega
          subst hn2
          refine ⟨base_bump_sum m hm2, fun _ _ => ⟨?_, ?_⟩⟩
          · rw [base_bump_getD m 0 hm2 (by omega)]
            simp
          · rw [base_bump_getD m (m - 1) hm2 (by omega)]
            simp

/-- Witness for C5 at a concrete input (jittered mode, 5 commits, 3 days). -/
theorem allocateAcrossDays_sum_anchors_witness :
    (allocateAcrossDays true (fun _ => 1) 5 3).sum = 5 ∧
    (1 < 5 → 1 < 3 →
      0 < (allocateAcrossDays true (fun _ => 1) 5 3).getD 0 0 ∧
      0 < (allocateAcrossDays true (fun _ => 1) 5 3).getD (3 - 1) 0) :=
  allocateAcrossDays_sum_anchors true (fun _ => 1) 5 3 (by decide)

/-- C6: in deterministic mode (day jitter disabled) middle commit `i` lands
on slot `1 + (i*7 + i*i) % (m-2)` -- one past the first day -- so slot `j`
holds the two anchors plus the number of middle commits whose formula value
is `j`; the four literal scenarios from the spec follow. -/
theorem allocateAcrossDays_deterministic_formula :
    (∀ (rng : Nat → Nat) (n m : Nat), 3 ≤ m → 2 ≤ n → ∀ j, j < m →
      (allocateAcrossDays false rng n m).getD j 0
        = (if j = 0 then 1 else 0) + (if j = m - 1 then 1 else 0)
          + (List.range (n - 2)).countP (fun i => 1 + (i * 7 + i * i) % (m - 2) = j)) ∧
    allocateAcrossDays false (fun _ => 0) 6 3 = [1, 4, 1] ∧
    allocateAcrossDays false (fun _ => 0) 7 3 = [1, 5, 1] ∧
    allocateAcrossDays false (fun _ => 0) 15 4 = [1, 13, 0, 1] ∧
    allocateAcrossDays false (fun _ => 0) 5 2 = [3, 2] := by
  refine ⟨?_, by decide, by decide, by decide, by decide⟩
  intro rng n m hm hn j hj
  unfold allocateAcrossDays
  rw [if_neg (by omega : ¬ m = 0), if_neg (by omega : ¬ n = 0),
    if_neg (by omega : ¬ n = 1), if_neg (by omega : ¬ m = 1)]
  by_cases h2 : 2 < n
  · rw [if_pos h2, if_pos (by omega : 0 < m - 2)]
    have hf : ∀ i ∈ List.range (n - 2),
        (fun i => 1 + (if (false : Bool) then rng i % (m - 2) else (i * 7 + i * i) % (m - 2))) i
          < (bump (bump (List.replicate m 0) 0) (m - 1)).length := by
      intro i _
      rw [base_bump_length]
      have : (i * 7 + i * i) % (m - 2) < m - 2 := Nat.mod_lt _ (by omega)
      simp only [Bool.false_eq_true, if_false]
      omega
    have hg := foldl_bump_getD _ (List.range (n - 2)) _ j hf
    simp only [Bool.false_eq_true, if_false] at hg ⊢
    rw [hg, base_bump_getD m j (by omega) hj]
  · rw [if_neg h2]
    have hn2 : n = 2 := by omega
    subst hn2
    rw [base_bump_getD m j (by omega) hj]
    simp

/-- Witness for C6's universally quantified part at a concrete input. -/
theorem allocateAcrossDays_deterministic_formula_witness :
    (allocateAcrossDays false (fun _ => 0) 6 3).getD 1 0
      = (if 1 = 0 then 1 else 0) + (if 1 = 3 - 1 then 1 else 0)
        + (List.range (6 - 2)).countP (fun i => 1 + (i * 7 + i * i) % (3 - 2) = 1) :=
  allocateAcrossDays_deterministic_formula.1 (fun _ => 0) 6 3 (by decide) (by decide) 1
    (by decide)

lemma bump_last_replicate : ∀ k : Nat,
    bump (List.replicate (k + 1) (0 : Nat)) k = List.replicate k 0 ++ [1]
  | 0 => rfl
  | k + 1 => by
      rw [List.replicate_succ]
      show 0 :: bump (List.replicate (k + 1) 0) k = List.replicate (k + 1) 0 ++ [1]
      rw [bump_last_replicate k, List.replicate_succ]
      rfl

/-- C7: a single commit (`n = 1`) with more than one eligible day is anchored
to the last day only, in both jittered and deterministic modes. -/
theorem allocateAcrossDays_single_commit (jd : Bool) (rng : Nat → Nat) (m : Nat)
    (hm : 1 < m) :
    allocateAcrossDays jd rng 1 m = List.replicate (m - 1) 0 ++ [1] := by
  unfold allocateAcrossDays
  rw [if_neg (by omega : ¬ m = 0), if_neg (by decide : ¬ (1 : Nat) = 0), if_pos rfl]
  obtain ⟨k, rfl⟩ : ∃ k, m = k + 1 := ⟨m - 1, by omega⟩
  simpa using bump_last_replicate k

/-- Witness for C7 at a concrete input. -/
theorem allocateAcrossDays_single_commit_witness :
    allocateAcrossDays true (fun _ => 2) 1 3 = List.replicate (3 - 1) 0 ++ [1] :=
  allocateAcrossDays_single_commit true (fun _ => 2) 3 (by decide)

/-! ## History Rewrite Executor (src/git/git.go) -/

/-- The SHA-1 of the empty git tree (src/git/git.go line 12). -/
def emptyTreeHash : String := "4b825dc642cb6eb9a060e54bf8d69288fbee4904"

/-- A git commit record (src/git/git.go lines 27-35). -/
structure Commit where
  Hash : String
  Subject : String
  Author : String
  Email : String
  DateTime : String
  IsMerge : Bool
  MergeFrom : String
deriving Repr, DecidableEq, Inhabited

/-- First index at which `pat` occurs in `s` (`strings.Index` restricted to
the character level; the patterns used by the source are ASCII, where byte
and character indices coincide). -/
def indexOfSub (pat : List Char) : List Char → Option Nat
  | [] => if pat.isPrefixOf ([] : List Char) then some 0 else none
  | c :: t =>
      if pat.isPrefixOf (c :: t) then some 0
      else (indexOfSub pat t).map (· + 1)

/-- `strings.Fields`: whitespace-separated fields of a string. -/
def goFields (s : String) : List String :=
  (s.split Char.isWhitespace).filter (· ≠ "")

/-- The field scan of `extractBranchNameFromMergeMessage` (src/git/git.go
lines 379-391): return the word following a `branch` token unless that word
is `into` (in which case the loop merely continues with the next index). -/
def scanFieldsForBranch : List String → String
  | "branch" :: next :: rest =>
      if next = "into" then scanFieldsForBranch (next :: rest) else next
  | _ :: rest => scanFieldsForBranch rest
  | [] => ""

/-- Embedding of `extractBranchNameFromMergeMessage` (src/git/git.go lines
361-395). -/
def extractBranchNameFromMergeMessage (message : String) : String :=
  match message.trim.splitOn "\n" with
  | [] => ""
  | firstLine :: _ =>
    let chars := firstLine.data
    let patQ := ("Merge branch '").data
    let quoted : Option String :=
      match indexOfSub patQ chars with
      | some idx =>
          let start := idx + patQ.length
          let rest := chars.drop start
          match indexOfSub (("'").data) rest with
          | some e => some (String.mk (rest.take e))
          | none => none
      | none => none
    match quoted with
    | some name => name
    | none =>
        if (indexOfSub (("Merge branch ").data) chars).isSome then
          scanFieldsForBranch (goFields firstLine)
        else ""

/-- Result of one git subprocess invocation, as observed by the executor:
whether the command exited successfully, whether (for `git status`) its
output contains "cherry-picking", and (for message queries) its output
text. -/
structure CmdResult where
  ok : Bool
  cherryPicking : Bool
  message : String
deriving Repr, DecidableEq, Inhabited

/-- The git subprocess boundary: the k-th command issued during one
`UpdateCommitTimes` run receives result `o k`. -/
def Oracle : Type := Nat → CmdResult

/-- The git commands issued by `UpdateCommitTimes`, in source order:
`git checkout <hash>`, `git checkout -b <branch>`, `git cherry-pick <hash>`,
`git cherry-pick --continue`, `git cherry-pick --skip`,
`git cherry-pick --abort`, `git cherry-pick --allow-empty <hash>`,
`git status`, `git log --format=%B -n 1 <hash>` (via `GetCommitMessage`),
`git merge -m <msg> <hash>`, `git commit --amend --no-edit --reset-author`
with `GIT_AUTHOR_DATE`/`GIT_COMMITTER_DATE` and optional
`GIT_AUTHOR_NAME`/`GIT_AUTHOR_EMAIL` (also exported as the committer
identity), `git checkout -B <branch>`, and `git branch -D <branch>`.
The `amend` constructor records the author date, the committer date and the
optional identity overrides placed in the environment. -/
inductive GitCmd where
  | checkout (ref : String)
  | checkoutNewBranch (branch : String)
  | cherryPick (hash : String)
  | cherryPickContinue
  | cherryPickSkip
  | cherryPickAbort
  | cherryPickAllowEmpty (hash : String)
  | statusQuery
  | messageQuery (hash : String)
  | mergeCmd (src : String) (msg : String)
  | amend (authorDate committerDate : Int) (envName envEmail : Option String)
  | checkoutForceBranch (branch : String)
  | deleteBranch (branch : String)
deriving Repr, DecidableEq, Inhabited

/-- Issue one git command: append it to the trace and consult the oracle at
the position equal to the number of commands issued so far. -/
def execCmd (o : Oracle) (tr : List GitCmd) (c : GitCmd) : List GitCmd × CmdResult :=
  (tr ++ [c], o tr.length)

/-- The body of the replay loop of `UpdateCommitTimes` (src/git/git.go lines
414-514) for a single commit paired with its planned time: replay the commit
(merge handling at lines 417-445, cherry-pick with the recovery ladder at
lines 446-474), then amend the timestamps/identity (lines 476-513).  Returns
the extended trace and whether the commit was fully processed (replay and
amend both succeeded). -/
def processOneCommit (o : Oracle) (branchName newCommitAuthorName newCommitAuthorEmail : String)
    (tr : List GitCmd) (commit : Commit) (newTime : Int) : List GitCmd × Bool :=
  let applied : List GitCmd × Bool :=
    if commit.IsMerge then
      if commit.MergeFrom = "" then (tr, false)
      else
        let s1 := execCmd o tr (GitCmd.messageQuery commit.Hash)
        if s1.2.ok = false then (s1.1, false)
        else
          let originalBranchName :=
            let e := extractBranchNameFromMergeMessage s1.2.message
            if e = "" then commit.MergeFrom.take 8 else e
          let customMergeMessage :=
            "Merge branch '" ++ originalBranchName ++ "' into " ++ branchName
          let s2 := execCmd o s1.1 (GitCmd.mergeCmd commit.MergeFrom customMergeMessage)
          (s2.1, s2.2.ok)
    else
      let s1 := execCmd o tr (GitCmd.cherryPick commit.Hash)
      if s1.2.ok then (s1.1, true)
      else
        let s2 := execCmd o s1.1 GitCmd.statusQuery
        if s2.2.ok && s2.2.cherryPicking then
          let s3 := execCmd o s2.1 GitCmd.cherryPickContinue
          if s3.2.ok then (s3.1, true)
          else
            let s4 := execCmd o s3.1 GitCmd.cherryPickSkip
            if s4.2.ok then (s4.1, true)
            else
              let s5 := execCmd o s4.1 GitCmd.cherryPickAbort
              let s6 := execCmd o s5.1 (GitCmd.cherryPickAllowEmpty commit.Hash)
              (s6.1, s6.2.ok)
        else
          let s3 := execCmd o s2.1 (GitCmd.cherryPickAllowEmpty commit.Hash)
          (s3.1, s3.2.ok)
  if applied.2 = false then (applied.1, false)
  else
    let am := execCmd o applied.1
      (GitCmd.amend newTime newTime
        (if newCommitAuthorName = "" then none else some newCommitAuthorName)
        (if newCommitAuthorEmail = "" then none else some newCommitAuthorEmail))
    (am.1, am.2.ok)

/-- The replay loop of `UpdateCommitTimes`: process the commits in order,
counting the successful updates, and stop at the first failure. -/
def replayLoop (o : Oracle) (branchName aN aE : String) :
    List GitCmd → Nat → List (Commit × Int) → List GitCmd × Nat × Bool
  | tr, successfulUpdates, [] => (tr, successfulUpdates, true)
  | tr, successfulUpdates, (c, t) :: rest =>
      let r := processOneCommit o branchName aN aE tr c t
      if r.2 then replayLoop o branchName aN aE r.1 (successfulUpdates + 1) rest
      else (r.1, successfulUpdates, false)

/-- The Go return value of `UpdateCommitTimes` -- the number of successful
updates and whether an error was returned -- together with the full ordered
trace of git commands issued during the run. -/
structure ExecOutcome where
  updated : Nat
  err : Bool
  trace : List GitCmd
deriving Repr, DecidableEq

/-- The tail of `UpdateCommitTimes` after the parent checkout (src/git/git.go
lines 407-526): create the rewrite branch, replay all commits, force the
original branch to the rewritten tip (`git checkout -B`), and delete the
rewrite branch.  `tr0` is the trace accumulated by the parent checkout. -/
def updateAfterCheckout (o : Oracle) (commits : List (Commit × Int))
    (branchName rewriteBranchName aN aE : String) (tr0 : List GitCmd) : ExecOutcome :=
  let s1 := execCmd o tr0 (GitCmd.checkoutNewBranch rewriteBranchName)
  if s1.2.ok = false then ⟨0, true, s1.1⟩
  else
    let res := replayLoop o branchName aN aE s1.1 0 commits
    if res.2.2 = false then ⟨res.2.1, true, res.1⟩
    else
      let s2 := execCmd o res.1 (GitCmd.checkoutForceBranch branchName)
      if s2.2.ok = false then ⟨res.2.1, true, s2.1⟩
      else
        let s3 := execCmd o s2.1 (GitCmd.deleteBranch rewriteBranchName)
        if s3.2.ok = false then ⟨res.2.1, true, s3.1⟩
        else ⟨res.2.1, false, s3.1⟩

/-- Embedding of `UpdateCommitTimes` (src/git/git.go lines 398-527): check
out the parent commit (skipped for the empty-tree hash), then run the tail
`updateAfterCheckout`. -/
def UpdateCommitTimes (o : Oracle) (commits : List (Commit × Int))
    (parentCommitHash branchName rewriteBranchName aN aE : String) : ExecOutcome :=
  if parentCommitHash = emptyTreeHash then
    updateAfterCheckout o commits branchName rewriteBranchName aN aE []
  else
    let s := execCmd o [] (GitCmd.checkout parentCommitHash)
    if s.2.ok = false then ⟨0, true, s.1⟩
    else updateAfterCheckout o commits branchName rewriteBranchName aN aE s.1

/-- Whether a command is the amend of a just-applied commit. -/
def isAmendCmd : GitCmd → Bool
  | .amend _ _ _ _ => true
  | _ => false

/-- Number of successfully executed amend commands in a trace whose first
command sits at oracle position `j` -- i.e. the number of commits whose
metadata rewrite fully succeeded. -/
def countOkAmends (o : Oracle) : Nat → List GitCmd → Nat
  | _, [] => 0
  | j, c :: rest =>
      (if isAmendCmd c && (o j).ok then 1 else 0) + countOkAmends o (j + 1) rest

/-- Commands that can be issued while replaying a single commit (as opposed
to the surrounding setup/teardown commands of `UpdateCommitTimes`). -/
def isReplayCmd : GitCmd → Bool
  | .checkout _ => false
  | .checkoutNewBranch _ => false
  | .checkoutForceBranch _ => false
  | .deleteBranch _ => false
  | _ => true

/-- Author identity produced by `git commit --amend --no-edit --reset-author`
(src/git/git.go line 480).  This models the documented behaviour of the git
collaborator: `--reset-author` discards the original commit's authorship and
re-creates it from `GIT_AUTHOR_NAME`/`GIT_AUTHOR_EMAIL` when those are
exported, falling back to the committer identity from the local git
configuration otherwise.  The original commit's author is not consulted. -/
def amendedIdentity (configName configEmail : String)
    (envName envEmail : Option String) : String × String :=
  (envName.getD configName, envEmail.getD configEmail)

/-- The amend command issued after every successful apply: both dates are the
planned time, and the identity overrides enter the environment only when
non-empty. -/
def amendCmdFor (aN aE : String) (t : Int) : GitCmd :=
  GitCmd.amend t t (if aN = "" then none else some aN)
    (if aE = "" then none else some aE)

/-- The regenerated merge message `"Merge branch '<name>' into <branch>"`. -/
def mergeMessageFor (branchName msg mergeFrom : String) : String :=
  "Merge branch '" ++
    (let e := extractBranchNameFromMergeMessage msg
     if e = "" then mergeFrom.take 8 else e) ++ "' into " ++ branchName

lemma processOneCommit_merge_noSource (o : Oracle) (bn aN aE : String)
    (tr : List GitCmd) (c : Commit) (t : Int)
    (hM : c.IsMerge = true) (hMF : c.MergeFrom = "") :
    processOneCommit o bn aN aE tr c t = (tr, false) := by
  simp [processOneCommit, execCmd, hM, hMF]

lemma processOneCommit_merge_msgFail (o : Oracle) (bn aN aE : String)
    (tr : List GitCmd) (c : Commit) (t : Int)
    (hM : c.IsMerge = true) (hMF : ¬ c.MergeFrom = "")
    (h1 : (o tr.length).ok = false) :
    processOneCommit o bn aN aE tr c t = (tr ++ [GitCmd.messageQuery c.Hash], false) := by
  simp [processOneCommit, execCmd, hM, hMF, h1]

lemma processOneCommit_merge_mergeFail (o : Oracle) (bn aN aE : String)
    (tr : List GitCmd) (c : Commit) (t : Int)
    (hM : c.IsMerge = true) (hMF : ¬ c.MergeFrom = "")
    (h1 : (o tr.length).ok = true) (h2 : (o (tr.length + 1)).ok = false) :
    processOneCommit o bn aN aE tr c t
      = (tr ++ [GitCmd.messageQuery c.Hash,
          GitCmd.mergeCmd c.MergeFrom
            (mergeMessageFor bn (o tr.length).message c.MergeFrom)], false) := by
  simp [processOneCommit, execCmd, hM, hMF, h1, h2, mergeMessageFor]

lemma processOneCommit_merge_ok (o : Oracle) (bn aN aE : String)
    (tr : List GitCmd) (c : Commit) (t : Int)
    (hM : c.IsMerge = true) (hMF : ¬ c.MergeFrom = "")
    (h1 : (o tr.length).ok = true) (h2 : (o (tr.length + 1)).ok = true) :
    processOneCommit o bn aN aE tr c t
      = (tr ++ [GitCmd.messageQuery c.Hash,
          GitCmd.mergeCmd c.MergeFrom
            (mergeMessageFor bn (o tr.length).message c.MergeFrom),
          amendCmdFor aN aE t], (o (tr.length + 2)).ok) := by
  simp [processOneCommit, execCmd, hM, hMF, h1, h2, mergeMessageFor, amendCmdFor]

lemma processOneCommit_pick_ok (o : Oracle) (bn aN aE : String)
    (tr : List GitCmd) (c : Commit) (t : Int)
    (hM : c.IsMerge = false) (h1 : (o tr.length).ok = true) :
    processOneCommit o bn aN aE tr c t
      = (tr ++ [GitCmd.cherryPick c.Hash, amendCmdFor aN aE t],
         (o (tr.length + 1)).ok) := by
  simp [processOneCommit, execCmd, hM, h1, amendCmdFor]

lemma processOneCommit_noState_allowEmptyOk (o : Oracle) (bn aN aE : String)
    (tr : List GitCmd) (c : Commit) (t : Int)
    (hM : c.IsMerge = false) (h1 : (o tr.length).ok = false)
    (hs : ((o (tr.length + 1)).ok && (o (tr.length + 1)).cherryPicking) = false)
    (hae : (o (tr.length + 2)).ok = true) :
    processOneCommit o bn aN aE tr c t
      = (tr ++ [GitCmd.cherryPick c.Hash, GitCmd.statusQuery,
          GitCmd.cherryPickAllowEmpty c.Hash, amendCmdFor aN aE t],
         (o (tr.length + 3)).ok) := by
  simp [processOneCommit, execCmd, hM, h1, hs, hae, amendCmdFor]

lemma processOneCommit_noState_allowEmptyFail (o : Oracle) (bn aN aE : String)
    (tr : List GitCmd) (c : Commit) (t : Int)
    (hM : c.IsMerge = false) (h1 : (o tr.length).ok = false)
    (hs : ((o (tr.length + 1)).ok && (o (tr.length + 1)).cherryPicking) = false)
    (hae : (o (tr.length + 2)).ok = false) :
    processOneCommit o bn aN aE tr c t
      = (tr ++ [GitCmd.cherryPick c.Hash, GitCmd.statusQuery,
          GitCmd.cherryPickAllowEmpty c.Hash], false) := by
  simp [processOneCommit, execCmd, hM, h1, hs, hae]

lemma processOneCommit_continue_ok (o : Oracle) (bn aN aE : String)
    (tr : List GitCmd) (c : Commit) (t : Int)
    (hM : c.IsMerge = false) (h1 : (o tr.length).ok = false)
    (hs : ((o (tr.length + 1)).ok && (o (tr.length + 1)).cherryPicking) = true)
    (hc : (o (tr.length + 2)).ok = true) :
    processOneCommit o bn aN aE tr c t
      = (tr ++ [GitCmd.cherryPick c.Hash, GitCmd.statusQuery,
          GitCmd.cherryPickContinue, amendCmdFor aN aE t],
         (o (tr.length + 3)).ok) := by
  simp [processOneCommit, execCmd, hM, h1, hs, hc, amendCmdFor]

lemma processOneCommit_skip_ok (o : Oracle) (bn aN aE : String)
    (tr : List GitCmd) (c : Commit) (t : Int)
    (hM : c.IsMerge = false) (h1 : (o tr.length).ok = false)
    (hs : ((o (tr.length + 1)).ok && (o (tr.length + 1)).cherryPicking) = true)
    (hc : (o (tr.length + 2)).ok = false) (hsk : (o (tr.length + 3)).ok = true) :
    processOneCommit o bn aN aE tr c t
      = (tr ++ [GitCmd.cherryPick c.Hash, GitCmd.statusQuery,
          GitCmd.cherryPickContinue, GitCmd.cherryPickSkip, amendCmdFor aN aE t],
         (o (tr.length + 4)).ok) := by
  simp [processOneCommit, execCmd, hM, h1, hs, hc, hsk, amendCmdFor]

lemma processOneCommit_abort_allowEmptyOk (o : Oracle) (bn aN aE : String)
    (tr : List GitCmd) (c : Commit) (t : Int)
    (hM : c.IsMerge = false) (h1 : (o tr.length).ok = false)
    (hs : ((o (tr.length + 1)).ok && (o (tr.length + 1)).cherryPicking) = true)
    (hc : (o (tr.length + 2)).ok = false) (hsk : (o (tr.length + 3)).ok = false)
    (hae : (o (tr.length + 5)).ok = true) :
    processOneCommit o bn aN aE tr c t
      = (tr ++ [GitCmd.cherryPick c.Hash, GitCmd.statusQuery,
          GitCmd.cherryPickContinue, GitCmd.cherryPickSkip, GitCmd.cherryPickAbort,
          GitCmd.cherryPickAllowEmpty c.Hash, amendCmdFor aN aE t],
         (o (tr.length + 6)).ok) := by
  simp [processOneCommit, execCmd, hM, h1, hs, hc, hsk, hae, amendCmdFor]

lemma processOneCommit_ladder_allFail (o : Oracle) (bn aN aE : String)
    (tr : List GitCmd) (c : Commit) (t : Int)
    (hM : c.IsMerge = false) (h1 : (o tr.length).ok = false)
    (hs : ((o (tr.length + 1)).ok && (o (tr.length + 1)).cherryPicking) = true)
    (hc : (o (tr.length + 2)).ok = false) (hsk : (o (tr.length + 3)).ok = false)
    (hae : (o (tr.length + 5)).ok = false) :
    processOneCommit o bn aN aE tr c t
      = (tr ++ [GitCmd.cherryPick c.Hash, GitCmd.statusQuery,
          GitCmd.cherryPickContinue, GitCmd.cherryPickSkip, GitCmd.cherryPickAbort,
          GitCmd.cherryPickAllowEmpty c.Hash], false) := by
  simp [processOneCommit, execCmd, hM, h1, hs, hc, hsk, hae]

/-- Every amend command issued by the executor carries equal author and
committer dates and the configured identity overrides (absent when the
configured strings are empty). -/
def amendWellFormed (aN aE : String) : GitCmd → Prop
  | .amend d1 d2 en ee =>
      d1 = d2 ∧ en = (if aN = "" then none else some aN)
        ∧ ee = (if aE = "" then none else some aE)
  | _ => True

lemma amendWellFormed_amendCmdFor (aN aE : String) (t : Int) :
    amendWellFormed aN aE (amendCmdFor aN aE t) := by
  simp [amendWellFormed, amendCmdFor]

lemma amendWellFormed_of_not_amend {aN aE : String} {c : GitCmd}
    (h : isAmendCmd c = false) : amendWellFormed aN aE c := by
  cases c <;> simp_all [amendWellFormed, isAmendCmd]

lemma countOkAmends_append (o : Oracle) (j : Nat) (A B : List GitCmd) :
    countOkAmends o j (A ++ B)
      = countOkAmends o j A + countOkAmends o (j + A.length) B := by
  induction A generalizing j with
  | nil => simp [countOkAmends]
  | cons c rest ih =>
      show (if isAmendCmd c && (o j).ok then 1 else 0) + countOkAmends o (j + 1) (rest ++ B)
          = ((if isAmendCmd c && (o j).ok then 1 else 0) + countOkAmends o (j + 1) rest)
            + countOkAmends o (j + (rest.length + 1)) B
      have h := ih (j + 1)
      rw [(by omega : j + 1 + rest.length = j + (rest.length + 1))] at h
      rw [h]
      omega

lemma isReplayCmd_ne_deleteBranch {c : GitCmd} (h : isReplayCmd c = true)
    (b : String) : c ≠ GitCmd.deleteBranch b := by
  cases c <;> simp_all [isReplayCmd]

lemma isReplayCmd_ne_checkoutForce {c : GitCmd} (h : isReplayCmd c = true)
    (b : String) : c ≠ GitCmd.checkoutForceBranch b := by
  cases c <;> simp_all [isReplayCmd]

/-- Structure of one loop iteration: it appends only replay commands, its
amend (when present) is well formed, and exactly one amend succeeds iff the
iteration succeeds. -/
lemma processOneCommit_spec (o : Oracle) (bn aN aE : String) (tr : List GitCmd)
    (c : Commit) (t : Int) :
    ∃ L, (processOneCommit o bn aN aE tr c t).1 = tr ++ L ∧
      (∀ cmd ∈ L, isReplayCmd cmd = true ∧ amendWellFormed aN aE cmd) ∧
      countOkAmends o tr.length L
        = (if (processOneCommit o bn aN aE tr c t).2 then 1 else 0) := by
  by_cases hM : c.IsMerge
  · by_cases hMF : c.MergeFrom = ""
    · rw [processOneCommit_merge_noSource o bn aN aE tr c t hM hMF]
      exact ⟨[], by simp, by simp, by simp [countOkAmends]⟩
    · by_cases h1 : (o tr.length).ok
      · by_cases h2 : (o (tr.length + 1)).ok
        · rw [processOneCommit_merge_ok o bn aN aE tr c t hM hMF h1 h2]
          refine ⟨_, rfl, ?_, ?_⟩
          · intro cmd hcmd
            simp only [List.mem_cons, List.not_mem_nil, or_false] at hcmd
            rcases hcmd with rfl | rfl | rfl
            · exact ⟨rfl, trivial⟩
            · exact ⟨rfl, trivial⟩
            · exact ⟨rfl, amendWellFormed_amendCmdFor aN aE t⟩
          · simp [countOkAmends, isAmendCmd, amendCmdFor, Nat.add_assoc]
        · rw [processOneCommit_merge_mergeFail o bn aN aE tr c t hM hMF h1
            (Bool.not_eq_true _ ▸ h2)]
          refine ⟨_, rfl, ?_, ?_⟩
          · intro cmd hcmd
            simp only [List.mem_cons, List.not_mem_nil, or_false] at hcmd
            rcases hcmd with rfl | rfl
            · exact ⟨rfl, trivial⟩
            · exact ⟨rfl, trivial⟩
          · simp [countOkAmends, isAmendCmd]
      · rw [processOneCommit_merge_msgFail o bn aN aE tr c t hM hMF
          (Bool.not_eq_true _ ▸ h1)]
        refine ⟨_, rfl, ?_, ?_⟩
        · intro cmd hcmd
          simp only [List.mem_cons, List.not_mem_nil, or_false] at hcmd
          rcases hcmd with rfl
          exact ⟨rfl, trivial⟩
        · simp [countOkAmends, isAmendCmd]
  · have hM' : c.IsMerge = false := Bool.not_eq_true _ ▸ hM
    by_cases h1 : (o tr.length).ok
    · rw [processOneCommit_pick_ok o bn aN aE tr c t hM' h1]
      refine ⟨_, rfl, ?_, ?_⟩
      · intro cmd hcmd
        simp only [List.mem_cons, List.not_mem_nil, or_false] at hcmd
        rcases hcmd with rfl | rfl
        · exact ⟨rfl, trivial⟩
        · exact ⟨rfl, amendWellFormed_amendCmdFor aN aE t⟩
      · simp [countOkAmends, isAmendCmd, amendCmdFor]
    · have h1' : (o tr.length).ok = false := Bool.not_eq_true _ ▸ h1
      by_cases hs : ((o (tr.length + 1)).ok && (o (tr.length + 1)).cherryPicking) = true
      · by_cases hc : (o (tr.length + 2)).ok
        · rw [processOneCommit_continue_ok o bn aN aE tr c t hM' h1' hs hc]
          refine ⟨_, rfl, ?_, ?_⟩
          · intro cmd hcmd
            simp only [List.mem_cons, List.not_mem_nil, or_false] at hcmd
            rcases hcmd with rfl | rfl | rfl | rfl
            · exact ⟨rfl, trivial⟩
            · exact ⟨rfl, trivial⟩
            · exact ⟨rfl, trivial⟩
            · exact ⟨rfl, amendWellFormed_amendCmdFor aN aE t⟩
          · simp [countOkAmends, isAmendCmd, amendCmdFor, Nat.add_assoc]
        · have hc' : (o (tr.length + 2)).ok = false := Bool.not_eq_true _ ▸ hc
          by_cases hsk : (o (tr.length + 3)).ok
          · rw [processOneCommit_skip_ok o bn aN aE tr c t hM' h1' hs hc' hsk]
            refine ⟨_, rfl, ?_, ?_⟩
            · intro cmd hcmd
              simp only [List.mem_cons, List.not_mem_nil, or_false] at hcmd
              rcases hcmd with rfl | rfl | rfl | rfl | rfl
              · exact ⟨rfl, trivial⟩
              · exact ⟨rfl, trivial⟩
              · exact ⟨rfl, trivial⟩
              · exact ⟨rfl, trivial⟩
              · exact ⟨rfl, amendWellFormed_amendCmdFor aN aE t⟩
            · simp [countOkAmends, isAmendCmd, amendCmdFor, Nat.add_assoc]
          · have hsk' : (o (tr.length + 3)).ok = false := Bool.not_eq_true _ ▸ hsk
            by_cases hae : (o (tr.length + 5)).ok
            · rw [processOneCommit_abort_allowEmptyOk o bn aN aE tr c t hM' h1' hs hc' hsk' hae]
              refine ⟨_, rfl, ?_, ?_⟩
              · intro cmd hcmd
                simp only [List.mem_cons, List.not_mem_nil, or_false] at hcmd
                rcases hcmd with rfl | rfl | rfl | rfl | rfl | rfl | rfl
                · exact ⟨rfl, trivial⟩
                · exact ⟨rfl, trivial⟩
                · exact ⟨rfl, trivial⟩
                · exact ⟨rfl, trivial⟩
                · exact ⟨rfl, trivial⟩
                · exact ⟨rfl, trivial⟩
                · exact ⟨rfl, amendWellFormed_amendCmdFor aN aE t⟩
              · simp [countOkAmends, isAmendCmd, amendCmdFor, Nat.add_assoc]
            · rw [processOneCommit_ladder_allFail o bn aN aE tr c t hM' h1' hs hc' hsk'
                (Bool.not_eq_true _ ▸ hae)]
              refine ⟨_, rfl, ?_, ?_⟩
              · intro cmd hcmd
                simp only [List.mem_cons, List.not_mem_nil, or_false] at hcmd
                rcases hcmd with rfl | rfl | rfl | rfl | rfl | rfl
                all_goals exact ⟨rfl, trivial⟩
              · simp [countOkAmends, isAmendCmd]
      · have hs' : ((o (tr.length + 1)).ok && (o (tr.length + 1)).cherryPicking) = false :=
          Bool.not_eq_true _ ▸ hs
        by_cases hae : (o (tr.length + 2)).ok
        · rw [processOneCommit_noState_allowEmptyOk o bn aN aE tr c t hM' h1' hs' hae]
          refine ⟨_, rfl, ?_, ?_⟩
          · intro cmd hcmd
            simp only [List.mem_cons, List.not_mem_nil, or_false] at hcmd
            rcases hcmd with rfl | rfl | rfl | rfl
            · exact ⟨rfl, trivial⟩
            · exact ⟨rfl, trivial⟩
            · exact ⟨rfl, trivial⟩
            · exact ⟨rfl, amendWellFormed_amendCmdFor aN aE t⟩
          · simp [countOkAmends, isAmendCmd, amendCmdFor, Nat.add_assoc]
        · rw [processOneCommit_noState_allowEmptyFail o bn aN aE tr c t hM' h1' hs'
            (Bool.not_eq_true _ ▸ hae)]
          refine ⟨_, rfl, ?_, ?_⟩
          · intro cmd hcmd
            simp only [List.mem_cons, List.not_mem_nil, or_false] at hcmd
            rcases hcmd with rfl | rfl | rfl
            all_goals exact ⟨rfl, trivial⟩
          · simp [countOkAmends, isAmendCmd]

/-- On a failing commit the loop stops and returns the accumulated count
unchanged. -/
lemma replayLoop_fail_eq (o : Oracle) (bn aN aE : String) (tr : List GitCmd)
    (cnt : Nat) (c : Commit) (t : Int) (rest : List (Commit × Int))
    (h : (processOneCommit o bn aN aE tr c t).2 = false) :
    replayLoop o bn aN aE tr cnt ((c, t) :: rest)
      = ((processOneCommit o bn aN aE tr c t).1, cnt, false) := by
  simp [replayLoop, h]

/-- Structure of the whole replay loop: it appends only (well-formed) replay
commands, the returned count equals the starting count plus the number of
successfully amended commits, and on success every commit was counted. -/
lemma replayLoop_spec (o : Oracle) (bn aN aE : String) :
    ∀ (cs : List (Commit × Int)) (tr : List GitCmd) (cnt : Nat),
      ∃ L, (replayLoop o bn aN aE tr cnt cs).1 = tr ++ L ∧
        (∀ cmd ∈ L, isReplayCmd cmd = true ∧ amendWellFormed aN aE cmd) ∧
        cnt + countOkAmends o tr.length L = (replayLoop o bn aN aE tr cnt cs).2.1 ∧
        ((replayLoop o bn aN aE tr cnt cs).2.2 = true →
          (replayLoop o bn aN aE tr cnt cs).2.1 = cnt + cs.length)
  | [], tr, cnt => ⟨[], by simp [replayLoop, countOkAmends]⟩
  | (c, t) :: rest, tr, cnt => by
      obtain ⟨L1, hL1, hprop1, hcnt1⟩ := processOneCommit_spec o bn aN aE tr c t
      by_cases hok : (processOneCommit o bn aN aE tr c t).2
      · obtain ⟨L2, hL2, hprop2, hcnt2, hall2⟩ :=
          replayLoop_spec o bn aN aE rest (processOneCommit o bn aN aE tr c t).1 (cnt + 1)
        have hstep : replayLoop o bn aN aE tr cnt ((c, t) :: rest)
            = replayLoop o bn aN aE (processOneCommit o bn aN aE tr c t).1 (cnt + 1) rest := by
          simp [replayLoop, hok]
        refine ⟨L1 ++ L2, ?_, ?_, ?_, ?_⟩
        · rw [hstep, hL2, hL1, List.append_assoc]
        · intro cmd hcmd
          rcases List.mem_append.mp hcmd with h | h
          · exact hprop1 cmd h
          · exact hprop2 cmd h
        · rw [hstep, countOkAmends_append, hcnt1, if_pos hok]
          have : tr.length + L1.length = (processOneCommit o bn aN aE tr c t).1.length := by
            rw [hL1, List.length_append]
          rw [this]
          omega
        · rw [hstep]
          intro hdone
          rw [hall2 hdone]
          simp only [List.length_cons]
          omega
      · have hok' : (processOneCommit o bn aN aE tr c t).2 = false :=
          Bool.not_eq_true _ ▸ hok
        rw [replayLoop_fail_eq o bn aN aE tr cnt c t rest hok']
        refine ⟨L1, hL1, hprop1, ?_, by simp⟩
        show cnt + countOkAmends o tr.length L1 = cnt
        rw [hcnt1, if_neg hok]
        omega

lemma countOkAmends_eq_zero_of_no_amend (o : Oracle) (j : Nat) (L : List GitCmd)
    (h : ∀ cmd ∈ L, isAmendCmd cmd = false) : countOkAmends o j L = 0 := by
  induction L generalizing j with
  | nil => rfl
  | cons c rest ih =>
      simp [countOkAmends, h c (by simp),
        ih (j + 1) (fun cmd hc => h cmd (by simp [hc]))]

lemma updateAfterCheckout_nbFail (o : Oracle) (cs : List (Commit × Int))
    (bn rbn aN aE : String) (tr0 : List GitCmd)
    (h : (o tr0.length).ok = false) :
    updateAfterCheckout o cs bn rbn aN aE tr0
      = ⟨0, true, tr0 ++ [GitCmd.checkoutNewBranch rbn]⟩ := by
  simp [updateAfterCheckout, execCmd, h]

lemma updateAfterCheckout_loopFail (o : Oracle) (cs : List (Commit × Int))
    (bn rbn aN aE : String) (tr0 : List GitCmd)
    (h : (o tr0.length).ok = true)
    (hl : (replayLoop o bn aN aE (tr0 ++ [GitCmd.checkoutNewBranch rbn]) 0 cs).2.2 = false) :
    updateAfterCheckout o cs bn rbn aN aE tr0
      = ⟨(replayLoop o bn aN aE (tr0 ++ [GitCmd.checkoutNewBranch rbn]) 0 cs).2.1, true,
         (replayLoop o bn aN aE (tr0 ++ [GitCmd.checkoutNewBranch rbn]) 0 cs).1⟩ := by
  simp [updateAfterCheckout, execCmd, h, hl]

lemma updateAfterCheckout_forceFail (o : Oracle) (cs : List (Commit × Int))
    (bn rbn aN aE : String) (tr0 : List GitCmd)
    (h : (o tr0.length).ok = true)
    (hl : (replayLoop o bn aN aE (tr0 ++ [GitCmd.checkoutNewBranch rbn]) 0 cs).2.2 = true)
    (hf : (o (replayLoop o bn aN aE (tr0 ++ [GitCmd.checkoutNewBranch rbn]) 0 cs).1.length).ok
      = false) :
    updateAfterCheckout o cs bn rbn aN aE tr0
      = ⟨(replayLoop o bn aN aE (tr0 ++ [GitCmd.checkoutNewBranch rbn]) 0 cs).2.1, true,
         (replayLoop o bn aN aE (tr0 ++ [GitCmd.checkoutNewBranch rbn]) 0 cs).1
           ++ [GitCmd.checkoutForceBranch bn]⟩ := by
  simp [updateAfterCheckout, execCmd, h, hl, hf]

lemma updateAfterCheckout_delFail (o : Oracle) (cs : List (Commit × Int))
    (bn rbn aN aE : String) (tr0 : List GitCmd)
    (h : (o tr0.length).ok = true)
    (hl : (replayLoop o bn aN aE (tr0 ++ [GitCmd.checkoutNewBranch rbn]) 0 cs).2.2 = true)
    (hf : (o (replayLoop o bn aN aE (tr0 ++ [GitCmd.checkoutNewBranch rbn]) 0 cs).1.length).ok
      = true)
    (hd : (o ((replayLoop o bn aN aE (tr0 ++ [GitCmd.checkoutNewBranch rbn]) 0 cs).1.length + 1)).ok
      = false) :
    updateAfterCheckout o cs bn rbn aN aE tr0
      = ⟨(replayLoop o bn aN aE (tr0 ++ [GitCmd.checkoutNewBranch rbn]) 0 cs).2.1, true,
         (replayLoop o bn aN aE (tr0 ++ [GitCmd.checkoutNewBranch rbn]) 0 cs).1
           ++ [GitCmd.checkoutForceBranch bn, GitCmd.deleteBranch rbn]⟩ := by
  simp [updateAfterCheckout, execCmd, h, hl, hf, hd]

lemma updateAfterCheckout_success (o : Oracle) (cs : List (Commit × Int))
    (bn rbn aN aE : String) (tr0 : List GitCmd)
    (h : (o tr0.length).ok = true)
    (hl : (replayLoop o bn aN aE (tr0 ++ [GitCmd.checkoutNewBranch rbn]) 0 cs).2.2 = true)
    (hf : (o (replayLoop o bn aN aE (tr0 ++ [GitCmd.checkoutNewBranch rbn]) 0 cs).1.length).ok
      = true)
    (hd : (o ((replayLoop o bn aN aE (tr0 ++ [GitCmd.checkoutNewBranch rbn]) 0 cs).1.length + 1)).ok
      = true) :
    updateAfterCheckout o cs bn rbn aN aE tr0
      = ⟨(replayLoop o bn aN aE (tr0 ++ [GitCmd.checkoutNewBranch rbn]) 0 cs).2.1, false,
         (replayLoop o bn aN aE (tr0 ++ [GitCmd.checkoutNewBranch rbn]) 0 cs).1
           ++ [GitCmd.checkoutForceBranch bn, GitCmd.deleteBranch rbn]⟩ := by
  simp [updateAfterCheckout, execCmd, h, hl, hf, hd]

lemma getD_append_last {A : List GitCmd} {x : GitCmd} (j : Nat)
    (hA : ∀ cmd ∈ A, cmd ≠ x) (hj : j < (A ++ [x]).length)
    (h : (A ++ [x]).getD j default = x) : j = A.length := by
  rcases Nat.lt_or_ge j A.length with hlt | hge
  · exfalso
    rw [List.getD_append _ _ _ _ hlt, List.getD_eq_getElem _ _ hlt] at h
    exact hA _ (List.getElem_mem _) h
  · have : j < A.length + 1 := by simpa using hj
    omega

lemma getD_append_pair_left (A : List GitCmd) (f d : GitCmd) :
    (A ++ [f, d]).getD A.length default = f := by
  rw [List.getD_append_right _ _ _ _ (le_refl _)]
  simp

lemma not_mem_of_forall_ne {A : List GitCmd} {x : GitCmd}
    (hA : ∀ cmd ∈ A, cmd ≠ x) {j : Nat} (hj : j < A.length)
    (h : A.getD j default = x) : False := by
  rw [List.getD_eq_getElem _ _ hj] at h
  exact hA _ (List.getElem_mem _) h

/-- Core accounting of `updateAfterCheckout`: on error the returned count is
the number of successfully amended commits, and a `deleteBranch` command can
sit in the trace only at the very end, right after a successful
`checkout -B` of the original branch, with all commits counted; when the run
errors, the delete (if issued at all) failed. -/
lemma updateAfterCheckout_spec (o : Oracle) (cs : List (Commit × Int))
    (bn rbn aN aE : String) (tr0 : List GitCmd)
    (hpre : ∀ cmd ∈ tr0, ∃ r, cmd = GitCmd.checkout r) :
    ((updateAfterCheckout o cs bn rbn aN aE tr0).err = true →
      (updateAfterCheckout o cs bn rbn aN aE tr0).updated
        = countOkAmends o 0 (updateAfterCheckout o cs bn rbn aN aE tr0).trace) ∧
    (∀ j, j < (updateAfterCheckout o cs bn rbn aN aE tr0).trace.length →
      (updateAfterCheckout o cs bn rbn aN aE tr0).trace.getD j default
          = GitCmd.deleteBranch rbn →
      ((updateAfterCheckout o cs bn rbn aN aE tr0).err = true → (o j).ok = false) ∧
      (updateAfterCheckout o cs bn rbn aN aE tr0).updated = cs.length ∧
      1 ≤ j ∧
      (updateAfterCheckout o cs bn rbn aN aE tr0).trace.getD (j - 1) default
          = GitCmd.checkoutForceBranch bn ∧
      (o (j - 1)).ok = true) := by
  have hnoamend : ∀ cmd ∈ tr0, isAmendCmd cmd = false := by
    intro cmd hc
    obtain ⟨r, rfl⟩ := hpre cmd hc
    rfl
  have hnodel0 : ∀ cmd ∈ tr0 ++ [GitCmd.checkoutNewBranch rbn],
      cmd ≠ GitCmd.deleteBranch rbn := by
    intro cmd hc
    rcases List.mem_append.mp hc with h | h
    · obtain ⟨r, rfl⟩ := hpre cmd h
      simp
    · simp only [List.mem_singleton] at h
      subst h
      simp
  have hcount0 : countOkAmends o 0 (tr0 ++ [GitCmd.checkoutNewBranch rbn]) = 0 := by
    apply countOkAmends_eq_zero_of_no_amend
    intro cmd hc
    rcases List.mem_append.mp hc with h | h
    · exact hnoamend cmd h
    · simp only [List.mem_singleton] at h
      subst h
      rfl
  by_cases hnb : (o tr0.length).ok
  · obtain ⟨L, hL, hprops, hcnt, hall⟩ :=
      replayLoop_spec o bn aN aE cs (tr0 ++ [GitCmd.checkoutNewBranch rbn]) 0
    have hnodelL : ∀ cmd ∈ (replayLoop o bn aN aE
        (tr0 ++ [GitCmd.checkoutNewBranch rbn]) 0 cs).1,
        cmd ≠ GitCmd.deleteBranch rbn := by
      intro cmd hc
      rw [hL] at hc
      rcases List.mem_append.mp hc with h | h
      · exact hnodel0 cmd h
      · exact isReplayCmd_ne_deleteBranch (hprops cmd h).1 rbn
    have hcountfull : countOkAmends o 0 (replayLoop o bn aN aE
        (tr0 ++ [GitCmd.checkoutNewBranch rbn]) 0 cs).1
        = (replayLoop o bn aN aE (tr0 ++ [GitCmd.checkoutNewBranch rbn]) 0 cs).2.1 := by
      rw [hL, countOkAmends_append, hcount0]
      simpa using hcnt
    by_cases hl : (replayLoop o bn aN aE (tr0 ++ [GitCmd.checkoutNewBranch rbn]) 0 cs).2.2
    · by_cases hforce : (o (replayLoop o bn aN aE
          (tr0 ++ [GitCmd.checkoutNewBranch rbn]) 0 cs).1.length).ok
      · by_cases hdel : (o ((replayLoop o bn aN aE
            (tr0 ++ [GitCmd.checkoutNewBranch rbn]) 0 cs).1.length + 1)).ok
        · -- full success
          rw [updateAfterCheckout_success o cs bn rbn aN aE tr0 hnb hl hforce hdel]
          have hassoc : (replayLoop o bn aN aE
                (tr0 ++ [GitCmd.checkoutNewBranch rbn]) 0 cs).1
                ++ [GitCmd.checkoutForceBranch bn, GitCmd.deleteBranch rbn]
              = ((replayLoop o bn aN aE (tr0 ++ [GitCmd.checkoutNewBranch rbn]) 0 cs).1
                ++ [GitCmd.checkoutForceBranch bn]) ++ [GitCmd.deleteBranch rbn] := by
            simp
          refine ⟨fun habs => absurd habs (by simp), ?_⟩
          intro j hj hdelj
          have hAne : ∀ cmd ∈ (replayLoop o bn aN aE
              (tr0 ++ [GitCmd.checkoutNewBranch rbn]) 0 cs).1
              ++ [GitCmd.checkoutForceBranch bn], cmd ≠ GitCmd.deleteBranch rbn := by
            intro cmd hc
            rcases List.mem_append.mp hc with h | h
            · exact hnodelL cmd h
            · simp only [List.mem_singleton] at h
              subst h
              simp
          rw [hassoc] at hj hdelj
          have hje := getD_append_last j hAne hj hdelj
          have hjval : j = (replayLoop o bn aN aE
              (tr0 ++ [GitCmd.checkoutNewBranch rbn]) 0 cs).1.length + 1 := by
            rw [hje]
            simp
          refine ⟨fun habs => absurd habs (by simp), ?_, by omega, ?_, ?_⟩
          · show (replayLoop o bn aN aE (tr0 ++ [GitCmd.checkoutNewBranch rbn]) 0 cs).2.1
              = cs.length
            rw [hall hl]
            omega
          · show ((replayLoop o bn aN aE (tr0 ++ [GitCmd.checkoutNewBranch rbn]) 0 cs).1
              ++ [GitCmd.checkoutForceBranch bn, GitCmd.deleteBranch rbn]).getD (j - 1) default
              = GitCmd.checkoutForceBranch bn
            rw [hjval]
            simpa using getD_append_pair_left _ (GitCmd.checkoutForceBranch bn)
              (GitCmd.deleteBranch rbn)
          · rw [hjval]
            simpa using hforce
        · -- delete failed
          have hdel' : (o ((replayLoop o bn aN aE
              (tr0 ++ [GitCmd.checkoutNewBranch rbn]) 0 cs).1.length + 1)).ok = false :=
            Bool.not_eq_true _ ▸ hdel
          rw [updateAfterCheckout_delFail o cs bn rbn aN aE tr0 hnb hl hforce hdel']
          have hassoc : (replayLoop o bn aN aE
                (tr0 ++ [GitCmd.checkoutNewBranch rbn]) 0 cs).1
                ++ [GitCmd.checkoutForceBranch bn, GitCmd.deleteBranch rbn]
              = ((replayLoop o bn aN aE (tr0 ++ [GitCmd.checkoutNewBranch rbn]) 0 cs).1
                ++ [GitCmd.checkoutForceBranch bn]) ++ [GitCmd.deleteBranch rbn] := by
            simp
          constructor
          · intro _
            show (replayLoop o bn aN aE (tr0 ++ [GitCmd.checkoutNewBranch rbn]) 0 cs).2.1
              = countOkAmends o 0 ((replayLoop o bn aN aE
                (tr0 ++ [GitCmd.checkoutNewBranch rbn]) 0 cs).1
                ++ [GitCmd.checkoutForceBranch bn, GitCmd.deleteBranch rbn])
            rw [countOkAmends_append, hcountfull,
              countOkAmends_eq_zero_of_no_amend o _ _ (by
                intro cmd hc
                simp only [List.mem_cons, List.not_mem_nil, or_false] at hc
                rcases hc with rfl | rfl <;> rfl)]
            omega
          · intro j hj hdelj
            have hAne : ∀ cmd ∈ (replayLoop o bn aN aE
                (tr0 ++ [GitCmd.checkoutNewBranch rbn]) 0 cs).1
                ++ [GitCmd.checkoutForceBranch bn], cmd ≠ GitCmd.deleteBranch rbn := by
              intro cmd hc
              rcases List.mem_append.mp hc with h | h
              · exact hnodelL cmd h
              · simp only [List.mem_singleton] at h
                subst h
                simp
            rw [hassoc] at hj hdelj
            have hje := getD_append_last j hAne hj hdelj
            have hjval : j = (replayLoop o bn aN aE
                (tr0 ++ [GitCmd.checkoutNewBranch rbn]) 0 cs).1.length + 1 := by
              rw [hje]
              simp
            refine ⟨fun _ => ?_, ?_, by omega, ?_, ?_⟩
            · rw [hjval]
              exact hdel'
            · show (replayLoop o bn aN aE (tr0 ++ [GitCmd.checkoutNewBranch rbn]) 0 cs).2.1
                = cs.length
              rw [hall hl]
              omega
            · show ((replayLoop o bn aN aE (tr0 ++ [GitCmd.checkoutNewBranch rbn]) 0 cs).1
                ++ [GitCmd.checkoutForceBranch bn, GitCmd.deleteBranch rbn]).getD
                  (j - 1) default
                = GitCmd.checkoutForceBranch bn
              rw [hjval]
              simpa using getD_append_pair_left _ (GitCmd.checkoutForceBranch bn)
                (GitCmd.deleteBranch rbn)
            · rw [hjval]
              simpa using hforce
      · -- checkout -B failed
        have hforce' : (o (replayLoop o bn aN aE
            (tr0 ++ [GitCmd.checkoutNewBranch rbn]) 0 cs).1.length).ok = false :=
          Bool.not_eq_true _ ▸ hforce
        rw [updateAfterCheckout_forceFail o cs bn rbn aN aE tr0 hnb hl hforce']
        constructor
        · intro _
          show (replayLoop o bn aN aE (tr0 ++ [GitCmd.checkoutNewBranch rbn]) 0 cs).2.1
            = countOkAmends o 0 ((replayLoop o bn aN aE
              (tr0 ++ [GitCmd.checkoutNewBranch rbn]) 0 cs).1
              ++ [GitCmd.checkoutForceBranch bn])
          rw [countOkAmends_append, hcountfull,
            countOkAmends_eq_zero_of_no_amend o _ _ (by
              intro cmd hc
              simp only [List.mem_singleton] at hc
              subst hc
              rfl)]
          omega
        · intro j hj hdelj
          exfalso
          refine not_mem_of_forall_ne ?_ hj hdelj
          intro cmd hc
          rcases List.mem_append.mp hc with h | h
          · exact hnodelL cmd h
          · simp only [List.mem_singleton] at h
            subst h
            simp
    · -- replay loop failed
      have hl' : (replayLoop o bn aN aE
          (tr0 ++ [GitCmd.checkoutNewBranch rbn]) 0 cs).2.2 = false :=
        Bool.not_eq_true _ ▸ hl
      rw [updateAfterCheckout_loopFail o cs bn rbn aN aE tr0 hnb hl']
      constructor
      · intro _
        exact hcountfull.symm
      · intro j hj hdelj
        exact absurd hdelj (by
          intro habs
          exact not_mem_of_forall_ne hnodelL hj habs)
  · -- creating the rewrite branch failed
    have hnb' : (o tr0.length).ok = false := Bool.not_eq_true _ ▸ hnb
    rw [updateAfterCheckout_nbFail o cs bn rbn aN aE tr0 hnb']
    constructor
    · intro _
      show (0 : Nat) = countOkAmends o 0 (tr0 ++ [GitCmd.checkoutNewBranch rbn])
      rw [hcount0]
    · intro j hj hdelj
      exact absurd hdelj (by
        intro habs
        exact not_mem_of_forall_ne hnodel0 hj habs)

/-- C9: on every failing path `UpdateCommitTimes` returns the partial success
count (the number of successfully amended commits) together with the error,
and the disposable rewrite branch is never successfully deleted; a
`deleteBranch` command is issued only as the final command of a run in which
every commit was replayed (the count equals the number of commits) and the
original branch name was just successfully pointed at the rewritten tip with
`checkout -B`. -/
theorem UpdateCommitTimes_failure_keeps_rewrite_branch (o : Oracle)
    (cs : List (Commit × Int)) (parent bn rbn aN aE : String) :
    ((UpdateCommitTimes o cs parent bn rbn aN aE).err = true →
      (UpdateCommitTimes o cs parent bn rbn aN aE).updated
        = countOkAmends o 0 (UpdateCommitTimes o cs parent bn rbn aN aE).trace ∧
      (∀ j, j < (UpdateCommitTimes o cs parent bn rbn aN aE).trace.length →
        (UpdateCommitTimes o cs parent bn rbn aN aE).trace.getD j default
            = GitCmd.deleteBranch rbn → (o j).ok = false)) ∧
    (∀ j, j < (UpdateCommitTimes o cs parent bn rbn aN aE).trace.length →
      (UpdateCommitTimes o cs parent bn rbn aN aE).trace.getD j default
          = GitCmd.deleteBranch rbn →
      (UpdateCommitTimes o cs parent bn rbn aN aE).updated = cs.length ∧ 1 ≤ j ∧
      (UpdateCommitTimes o cs parent bn rbn aN aE).trace.getD (j - 1) default
          = GitCmd.checkoutForceBranch bn ∧ (o (j - 1)).ok = true) := by
  by_cases hp : parent = emptyTreeHash
  · have hR : UpdateCommitTimes o cs parent bn rbn aN aE
        = updateAfterCheckout o cs bn rbn aN aE [] := by
      simp [UpdateCommitTimes, hp]
    rw [hR]
    have hspec := updateAfterCheckout_spec o cs bn rbn aN aE [] (by simp)
    exact ⟨fun he => ⟨hspec.1 he, fun j hj hd => (hspec.2 j hj hd).1 he⟩,
      fun j hj hd => ⟨(hspec.2 j hj hd).2.1, (hspec.2 j hj hd).2.2.1,
        (hspec.2 j hj hd).2.2.2.1, (hspec.2 j hj hd).2.2.2.2⟩⟩
  · by_cases hc0 : (o 0).ok
    · have hR : UpdateCommitTimes o cs parent bn rbn aN aE
          = updateAfterCheckout o cs bn rbn aN aE [GitCmd.checkout parent] := by
        simp [UpdateCommitTimes, execCmd, hp, hc0]
      rw [hR]
      have hspec := updateAfterCheckout_spec o cs bn rbn aN aE [GitCmd.checkout parent]
        (by
          intro cmd hc
          simp only [List.mem_singleton] at hc
          exact ⟨parent, hc⟩)
      exact ⟨fun he => ⟨hspec.1 he, fun j hj hd => (hspec.2 j hj hd).1 he⟩,
        fun j hj hd => ⟨(hspec.2 j hj hd).2.1, (hspec.2 j hj hd).2.2.1,
          (hspec.2 j hj hd).2.2.2.1, (hspec.2 j hj hd).2.2.2.2⟩⟩
    · have hc0' : (o 0).ok = false := Bool.not_eq_true _ ▸ hc0
      have hR : UpdateCommitTimes o cs parent bn rbn aN aE
          = ⟨0, true, [GitCmd.checkout parent]⟩ := by
        simp [UpdateCommitTimes, execCmd, hp, hc0']
      rw [hR]
      have hnotdel : ∀ cmd ∈ [GitCmd.checkout parent],
          cmd ≠ GitCmd.deleteBranch rbn := by
        intro cmd hc
        simp only [List.mem_singleton] at hc
        subst hc
        simp
      refine ⟨fun _ => ⟨?_, ?_⟩, ?_⟩
      · show (0 : Nat) = countOkAmends o 0 [GitCmd.checkout parent]
        simp [countOkAmends, isAmendCmd]
      · intro j hj hd
        exact absurd hd (by
          intro habs
          exact not_mem_of_forall_ne hnotdel hj habs)
      · intro j hj hd
        exact absurd hd (by
          intro habs
          exact not_mem_of_forall_ne hnotdel hj habs)

/-- An oracle whose every command fails. -/
def failOracle : Oracle := fun _ => ⟨false, false, ""⟩

/-- Witness for C9: a failing run returns its partial success count. -/
theorem UpdateCommitTimes_failure_keeps_rewrite_branch_witness :
    (UpdateCommitTimes failOracle [] "p0" "main" "rewrite-history" "" "").updated
      = countOkAmends failOracle 0
          (UpdateCommitTimes failOracle [] "p0" "main" "rewrite-history" "" "").trace :=
  ((UpdateCommitTimes_failure_keeps_rewrite_branch failOracle [] "p0" "main"
      "rewrite-history" "" "").1 (by decide)).1

/-- C8: when replaying a regular commit fails and a cherry-pick in progress
is detected, the executor escalates in exactly the order continue, then
skip, then abort followed by a re-attempt with `--allow-empty`, stopping at
the first success (the amend of the preserved commit follows immediately);
only when continue, skip and allow-empty have all failed does the commit
fail, and the loop then halts returning the count of commits successfully
replayed so far. -/
theorem cherryPick_recovery_ladder (o : Oracle) (bn aN aE : String)
    (tr : List GitCmd) (c : Commit) (t : Int)
    (hM : c.IsMerge = false)
    (hpick : (o tr.length).ok = false)
    (hst : ((o (tr.length + 1)).ok && (o (tr.length + 1)).cherryPicking) = true) :
    ((o (tr.length + 2)).ok = true →
      processOneCommit o bn aN aE tr c t
        = (tr ++ [GitCmd.cherryPick c.Hash, GitCmd.statusQuery,
            GitCmd.cherryPickContinue, amendCmdFor aN aE t],
           (o (tr.length + 3)).ok)) ∧
    ((o (tr.length + 2)).ok = false → (o (tr.length + 3)).ok = true →
      processOneCommit o bn aN aE tr c t
        = (tr ++ [GitCmd.cherryPick c.Hash, GitCmd.statusQuery,
            GitCmd.cherryPickContinue, GitCmd.cherryPickSkip, amendCmdFor aN aE t],
           (o (tr.length + 4)).ok)) ∧
    ((o (tr.length + 2)).ok = false → (o (tr.length + 3)).ok = false →
      (o (tr.length + 5)).ok = true →
      processOneCommit o bn aN aE tr c t
        = (tr ++ [GitCmd.cherryPick c.Hash, GitCmd.statusQuery,
            GitCmd.cherryPickContinue, GitCmd.cherryPickSkip, GitCmd.cherryPickAbort,
            GitCmd.cherryPickAllowEmpty c.Hash, amendCmdFor aN aE t],
           (o (tr.length + 6)).ok)) ∧
    ((o (tr.length + 2)).ok = false → (o (tr.length + 3)).ok = false →
      (o (tr.length + 5)).ok = false →
      processOneCommit o bn aN aE tr c t
        = (tr ++ [GitCmd.cherryPick c.Hash, GitCmd.statusQuery,
            GitCmd.cherryPickContinue, GitCmd.cherryPickSkip, GitCmd.cherryPickAbort,
            GitCmd.cherryPickAllowEmpty c.Hash], false)) ∧
    (∀ (cnt : Nat) (rest : List (Commit × Int)),
      (processOneCommit o bn aN aE tr c t).2 = false →
      replayLoop o bn aN aE tr cnt ((c, t) :: rest)
        = ((processOneCommit o bn aN aE tr c t).1, cnt, false)) :=
  ⟨fun hc => processOneCommit_continue_ok o bn aN aE tr c t hM hpick hst hc,
   fun hc hsk => processOneCommit_skip_ok o bn aN aE tr c t hM hpick hst hc hsk,
   fun hc hsk hae =>
     processOneCommit_abort_allowEmptyOk o bn aN aE tr c t hM hpick hst hc hsk hae,
   fun hc hsk hae =>
     processOneCommit_ladder_allFail o bn aN aE tr c t hM hpick hst hc hsk hae,
   fun cnt rest h => replayLoop_fail_eq o bn aN aE tr cnt c t rest h⟩

/-- A regular (non-merge) commit used in concrete executor scenarios. -/
def sampleCommit : Commit :=
  ⟨"abc12345", "Fix bug", "John Doe", "john@example.com",
   "2024-01-01 23:30:00 +0000", false, ""⟩

/-- Oracle for the C8 witness: the cherry-pick fails, `git status` reports a
cherry-pick in progress, and every recovery command fails. -/
def ladderOracle : Oracle := fun k =>
  if k = 1 then ⟨true, true, ""⟩ else ⟨false, false, ""⟩

/-- Witness for C8: with every recovery step failing, the issued commands
are exactly the full ladder and the commit fails. -/
theorem cherryPick_recovery_ladder_witness :
    processOneCommit ladderOracle "main" "" "" [] sampleCommit 5
      = ([GitCmd.cherryPick "abc12345", GitCmd.statusQuery,
          GitCmd.cherryPickContinue, GitCmd.cherryPickSkip, GitCmd.cherryPickAbort,
          GitCmd.cherryPickAllowEmpty "abc12345"], false) :=
  (cherryPick_recovery_ladder ladderOracle "main" "" "" [] sampleCommit 5
      (by decide) (by decide) (by decide)).2.2.2.1 (by decide) (by decide) (by decide)

/-- An oracle whose every command succeeds. -/
def okOracle : Oracle := fun _ => ⟨true, false, ""⟩

/-- C1 (code bug): after the successful apply the amend step does set both
the author and the committer date to the planned timestamp (the trace below
records `amend 1000 1000`), and with no override configured no identity
override enters the environment; but because the amend command is
`git commit --amend --no-edit --reset-author`, git then re-creates the
authorship from the local configuration identity rather than keeping the
original commit's author: with configuration identity Jane Smith the
original John Doe authorship is replaced, contradicting the claimed exact
preservation. -/
theorem UpdateCommitTimes_resetAuthor_drops_original_author :
    (UpdateCommitTimes okOracle [(sampleCommit, 1000)]
        "p0" "main" "rewrite-history" "" "").trace
      = [GitCmd.checkout "p0", GitCmd.checkoutNewBranch "rewrite-history",
         GitCmd.cherryPick "abc12345", GitCmd.amend 1000 1000 none none,
         GitCmd.checkoutForceBranch "main", GitCmd.deleteBranch "rewrite-history"] ∧
    amendedIdentity "Jane Smith" "jane@example.com" none none
      = ("Jane Smith", "jane@example.com") ∧
    ("Jane Smith", "jane@example.com") ≠ (sampleCommit.Author, sampleCommit.Email) :=
  ⟨by decide, rfl, by decide⟩

end CodeCadence
